import Mathlib

/-!
# TexBot: the expression parser, the diagnostic extractor and the render pipeline

A shallow embedding of `parser.go` and `converter.go`.

* Go strings are modelled as `List Char` (valid UTF-8 text, one `Char` per rune).
* Go `int` is the 64-bit signed integer of the deployment platform; values are
  kept in `Int` and every place where the machine integer can wrap or saturate
  is written out explicitly.
* The two regular expressions of the program are values of a small regular
  expression syntax `Regex` and are run by a backtracking matcher that lists
  the matches in the priority order of Go's `regexp` package (leftmost-first:
  the leftmost start position, and among the matches starting there the one a
  backtracking search finds first).
-/

namespace TexBot

/-! ## Regular expressions (the fragment of Go's `regexp` the program uses) -/

/-- Captured groups: pairs of group number and captured text, most recent first. -/
abbrev Caps := List (Nat × List Char)

/-- Regular expression syntax: single characters from a class, concatenation,
greedy repetition of a character class (`*` and `+`), the greedy optional `?`
and numbered capturing groups. -/
inductive Regex where
  | cls (p : Char → Bool)
  | seq (a b : Regex)
  | star (p : Char → Bool)
  | plus (p : Char → Bool)
  | opt (r : Regex)
  | group (i : Nat) (r : Regex)

/-- One way of matching at the start of the input: the text consumed, the text
left over and the groups captured so far. -/
structure Match where
  consumed : List Char
  rest : List Char
  caps : Caps

/-- All ways a greedy `p*` can split the input, longest repetition first. -/
def starSplits (p : Char → Bool) : List Char → List (List Char × List Char)
  | [] => [([], [])]
  | c :: cs =>
    if p c then (starSplits p cs).map (fun s => (c :: s.1, s.2)) ++ [([], c :: cs)]
    else [([], c :: cs)]

/-- All ways a greedy `p+` can split the input, longest repetition first. -/
def plusSplits (p : Char → Bool) : List Char → List (List Char × List Char)
  | [] => []
  | c :: cs => if p c then (starSplits p cs).map (fun s => (c :: s.1, s.2)) else []

/-- The matches of a regular expression anchored at the start of the input, in
the order a backtracking search tries them. -/
def Regex.matches : Regex → List Char → Caps → List Match
  | .cls p, inp, caps =>
    match inp with
    | [] => []
    | c :: cs => if p c then [⟨[c], cs, caps⟩] else []
  | .seq a b, inp, caps =>
    (a.matches inp caps).flatMap fun m1 =>
      (b.matches m1.rest m1.caps).map fun m2 => ⟨m1.consumed ++ m2.consumed, m2.rest, m2.caps⟩
  | .star p, inp, caps => (starSplits p inp).map fun s => ⟨s.1, s.2, caps⟩
  | .plus p, inp, caps => (plusSplits p inp).map fun s => ⟨s.1, s.2, caps⟩
  | .opt r, inp, caps => r.matches inp caps ++ [⟨[], inp, caps⟩]
  | .group i r, inp, caps =>
    (r.matches inp caps).map fun m => ⟨m.consumed, m.rest, (i, m.consumed) :: m.caps⟩

/-- The leftmost-first match: the first start position that has a match, and
there the match of highest priority. -/
def Regex.find (r : Regex) : List Char → Option Match
  | [] => (r.matches [] []).head?
  | c :: cs =>
    match (r.matches (c :: cs) []).head? with
    | some m => some m
    | none => r.find cs

/-- The slice `(*Regexp).FindStringSubmatch` returns for a pattern with `n`
groups: nil (the empty list) without a match, otherwise the matched text
followed by the text of groups `1..n`, the empty string for a group that took
no part in the match. -/
def Regex.FindStringSubmatch (r : Regex) (n : Nat) (input : List Char) : List (List Char) :=
  match r.find input with
  | none => []
  | some m => m.consumed :: (List.range n).map fun i => (m.caps.lookup (i + 1)).getD []

/-- A literal character of a pattern. -/
def lit (c : Char) : Regex := .cls (fun x => x == c)

/-- Perl class `\s` of Go's regexp syntax: `[\t\n\f\r ]`. -/
def isSpace (c : Char) : Bool :=
  c == '\t' || c == '\n' || c == Char.ofNat 12 || c == '\r' || c == ' '

/-- Perl class `\d` of Go's regexp syntax: `[0-9]`. -/
def isDigit (c : Char) : Bool := decide ('0' ≤ c) && decide (c ≤ '9')

/-- Perl class `\w` of Go's regexp syntax: `[0-9A-Za-z_]`. -/
def isWord (c : Char) : Bool :=
  isDigit c || (decide ('A' ≤ c) && decide (c ≤ 'Z')) ||
    (decide ('a' ≤ c) && decide (c ≤ 'z')) || c == '_'

/-! ## parser.go -/

/-- The optional scale argument `(\[(\d+)\])?` that ends the pattern. -/
def scaleArg : Regex :=
  .opt (.group 2 (.seq (lit '[') (.seq (.group 3 (.plus isDigit)) (lit ']'))))

/-- The pattern `\$\$\s*([^$]+)\s*\$\$(\[(\d+)\])?` compiled in `init`. -/
def SEARCH_EXPR : Regex :=
  .seq (lit '$') <| .seq (lit '$') <| .seq (.star isSpace) <|
  .seq (.group 1 (.plus (fun c => !(c == '$')))) <| .seq (.star isSpace) <|
  .seq (lit '$') <| .seq (lit '$') scaleArg

/-- Cutset trimming of `strings.Trim`: every leading and trailing character that
belongs to `cutset` is removed. -/
def Trim (s cutset : List Char) : List Char :=
  (s.rdropWhile fun c => decide (c ∈ cutset)).dropWhile fun c => decide (c ∈ cutset)

/-! ### strconv.Atoi (Go standard library, 64-bit `int`) -/

/-- The two error kinds of `strconv.NumError`: malformed text and value out of range. -/
inductive NumError where
  | malformed
  | outOfRange
  deriving DecidableEq, Repr

/-- Largest `uint64`. -/
def maxUint64 : Nat := 2 ^ 64 - 1

/-- Value of an ASCII digit, `ch - '0'`. -/
def digitVal (c : Char) : Nat := c.toNat - 48

/-- The fast path loop of `Atoi`: `n = n*10 + int(ch)` over the characters,
a malformed-text error at the first character that is not a digit. -/
def atoiFast : List Char → Int → Int × Option NumError
  | [], n => (n, none)
  | c :: cs, n => if isDigit c then atoiFast cs (n * 10 + digitVal c) else (0, some .malformed)

/-- The digit loop of `ParseUint(s, 10, 64)`: stops with the largest `uint64`
and a range error when the next step would leave 64 bits. -/
def parseUintLoop : List Char → Nat → Nat × Option NumError
  | [], n => (n, none)
  | c :: cs, n =>
    if !isDigit c then (0, some .malformed)
    else if n ≥ maxUint64 / 10 + 1 then (maxUint64, some .outOfRange)
    else
      let n10 := n * 10
      let n1 := (n10 + digitVal c) % 2 ^ 64
      if n1 < n10 ∨ n1 > maxUint64 then (maxUint64, some .outOfRange)
      else parseUintLoop cs n1

/-- Model of `strconv.ParseUint(s, 10, 64)`. -/
def ParseUint (s : List Char) : Nat × Option NumError :=
  if s = [] then (0, some .malformed) else parseUintLoop s 0

/-- Model of `strconv.ParseInt(s, 10, 0)` on a 64-bit platform. -/
def ParseInt (s : List Char) : Int × Option NumError :=
  match s with
  | [] => (0, some .malformed)
  | c :: cs =>
    let neg := c == '-'
    let body := if c == '+' ∨ c == '-' then cs else c :: cs
    match ParseUint body with
    | (_, some .malformed) => (0, some .malformed)
    | (un, _) =>
      let cutoff : Nat := 2 ^ 63
      if !neg ∧ un ≥ cutoff then ((cutoff : Int) - 1, some .outOfRange)
      else if neg ∧ un > cutoff then (-(cutoff : Int), some .outOfRange)
      else (if neg then -(un : Int) else (un : Int), none)

/-- Model of `strconv.Atoi` on a 64-bit platform: the fast path for texts of
fewer than 19 characters, `ParseInt(s, 10, 0)` otherwise. -/
def Atoi (s : List Char) : Int × Option NumError :=
  if 0 < s.length ∧ s.length < 19 then
    match s with
    | [] => (0, some .malformed)
    | c :: cs =>
      let body := if c == '-' ∨ c == '+' then cs else c :: cs
      if body.length < 1 then (0, some .malformed)
      else
        match atoiFast body 0 with
        | (n, none) => (if c == '-' then -n else n, none)
        | (_, some e) => (0, some e)
  else ParseInt s

/-- The integer a text of decimal digits denotes in base 10. -/
def decVal (d : List Char) : Nat := d.foldl (fun n c => n * 10 + digitVal c) 0

/-- Config object for ParsedString. -/
structure Config where
  Scale : Int
  deriving DecidableEq, Repr

/-- ParsedString of parser.go: the expression, its configuration and the match flag. -/
structure ParsedString where
  Expr : List Char
  Config : Config
  HasMatch : Bool
  deriving DecidableEq, Repr

/-- Takes a raw string and parses it for a single LaTeX expression (parser.go,
`ParseString`). -/
def ParseString (input : List Char) : ParsedString :=
  let m := SEARCH_EXPR.FindStringSubmatch 3 input
  if m.length = 0 then ⟨[], ⟨0⟩, false⟩
  else
    let expr := Trim (m.getD 1 []) [' ']
    if expr.length = 0 then ⟨[], ⟨0⟩, false⟩
    else if (m.getD 3 []).length ≠ 0 then ⟨expr, ⟨(Atoi (m.getD 3 [])).1⟩, true⟩
    else ⟨expr, ⟨4⟩, true⟩

/-! ## converter.go -/

/-- The closing marker `\nNo pages` of the diagnostic pattern. -/
def noPages : Regex :=
  .seq (lit '\n') <| .seq (lit 'N') <| .seq (lit 'o') <| .seq (lit ' ') <| .seq (lit 'p') <|
  .seq (lit 'a') <| .seq (lit 'g') <| .seq (lit 'e') (lit 's')

/-- The pattern `\n! ([\w\W]+)\nNo pages` compiled in `getLatexParseError`. -/
def PARSE_ERROR_EXPR : Regex :=
  .seq (lit '\n') <| .seq (lit '!') <| .seq (lit ' ') <|
  .seq (.group 1 (.plus (fun c => isWord c || !isWord c))) noPages

/-- Parse output for the LaTeX parsing error (converter.go, `getLatexParseError`).
Of the slice `FindAllStringSubmatch(output, -1)` only element 0 is read, and that
is the leftmost-first match, the one `FindStringSubmatch` returns. -/
def getLatexParseError (output : List Char) : List Char :=
  let m := PARSE_ERROR_EXPR.FindStringSubmatch 1 output
  if m.length = 0 then [] else m.getD 1 []

/-- A non-nil Go `error` value. -/
structure GoError where
  msg : String
  deriving DecidableEq, Repr

/-- A non-nil `*os.File`, identified by the path it was opened on. -/
structure File where
  name : List Char
  deriving DecidableEq, Repr

/-- RenderResult of converter.go; `none` stands for a nil `File` or a nil `Err`. -/
structure RenderResult where
  File : Option File
  Err : Option GoError
  ParseErrMsg : List Char
  deriving DecidableEq, Repr

/-- The outcome of every operating-system call and every external tool of one
`Render` call; `none` in an `Option GoError` is success. -/
structure World where
  mkdirTemp : Except GoError (List Char)
  create : Option GoError
  writeString : Option GoError
  close : Option GoError
  latex : List Char × Option GoError
  dvisvgm : Option GoError
  inkscape : Option GoError
  openImage : Option GoError
  removeAll : Option GoError

/-- The three external tools. -/
inductive Tool where
  | latex
  | dvisvgm
  | inkscape
  deriving DecidableEq, Repr

/-- One `exec.Command` that was run: the tool and its arguments. -/
structure Command where
  tool : Tool
  args : List (List Char)
  deriving DecidableEq, Repr

/-- How a call ends: with a returned value or with a run-time panic. -/
inductive Outcome where
  | returned (r : RenderResult)
  | panicked
  deriving DecidableEq, Repr

/-- What one `Render` call leaves behind: how it ended, the commands it ran in
order and the paths that exist afterwards. -/
structure Run where
  outcome : Outcome
  commands : List Command
  fs : List (List Char)
  deriving DecidableEq, Repr

/-- The path `path.Join(dir, name)` for a clean directory path and a file name. -/
def pathJoin (dir name : List Char) : List Char := dir ++ '/' :: name

/-- The effect of `os.RemoveAll(dir)` given its outcome `res`. On success the
path and everything below it is gone. On an error something below `dir`, or
`dir` itself, could not be removed, so `dir` is still there; the paths are then
kept as they are. -/
def RemoveAll (res : Option GoError) (dir : List Char) (fs : List (List Char)) :
    List (List Char) :=
  match res with
  | none => fs.filter fun p => !(p == dir || (dir ++ ['/']).isPrefixOf p)
  | some _ => fs

/-- A Go `int` expression evaluated in 64-bit two's complement. -/
def wrapInt64 (x : Int) : Int := (x + 2 ^ 63) % 2 ^ 64 - 2 ^ 63

/-- The verb `%d` of `fmt.Sprintf` on an `int`: the decimal rendering. -/
def formatInt (n : Int) : List Char :=
  if n < 0 then '-' :: Nat.toDigits 10 n.natAbs else Nat.toDigits 10 n.toNat

/-- The body of `Render` after the workspace `dir` exists and its removal is
deferred. The text written into the source file is not tracked, only which
paths exist. -/
def renderBody (w : World) (fs : List (List Char)) (dir : List Char) (inp : ParsedString) :
    Run :=
  match w.create with
  | some _ =>
    -- `f` is nil and `f.Name()` dereferences it; the error is never inspected
    ⟨.panicked, [], fs⟩
  | none =>
    let fName := pathJoin dir "source.tex".toList
    let fs1 := fName :: fs
    -- the results of `f.WriteString` and `f.Close` are discarded
    let latexCmd : Command := ⟨.latex, ["-no-shell-escape".toList,
      "-interaction=nonstopmode".toList, "-halt-on-error".toList,
      "-output-directory=".toList ++ dir, "-output-format=dvi".toList, fName]⟩
    match w.latex with
    | (out, some err) => ⟨.returned ⟨none, some err, getLatexParseError out⟩, [latexCmd], fs1⟩
    | (_, none) =>
      let fs2 := pathJoin dir "source.dvi".toList :: fs1
      let svgCmd : Command := ⟨.dvisvgm, ["--no-fonts".toList, "--exact-bbox".toList,
        "-Z4".toList, "--output=".toList ++ (fName ++ ".svg".toList),
        pathJoin dir "source.dvi".toList]⟩
      match w.dvisvgm with
      | some err => ⟨.returned ⟨none, some err, []⟩, [latexCmd, svgCmd], fs2⟩
      | none =>
        let fs3 := (fName ++ ".svg".toList) :: fs2
        let outFile := fName ++ ".png".toList
        let pngCmd : Command := ⟨.inkscape, [fName ++ ".svg".toList,
          "--export-height=".toList ++ formatInt (wrapInt64 (inp.Config.Scale * 50)),
          "--export-png=".toList ++ outFile]⟩
        match w.inkscape with
        | some err => ⟨.returned ⟨none, some err, []⟩, [latexCmd, svgCmd, pngCmd], fs3⟩
        | none =>
          let fs4 := outFile :: fs3
          match w.openImage with
          | some err => ⟨.returned ⟨none, some err, []⟩, [latexCmd, svgCmd, pngCmd], fs4⟩
          | none => ⟨.returned ⟨some ⟨outFile⟩, none, []⟩, [latexCmd, svgCmd, pngCmd], fs4⟩

/-- Render a LaTeX expression and return a RenderResult (converter.go, `Render`),
started on a file system holding the paths `fs`. The deferred `os.RemoveAll(dir)`
runs when the body ends, by a return or by a panic, and its error is discarded. -/
def Render (w : World) (fs : List (List Char)) (inp : ParsedString) : Run :=
  match w.mkdirTemp with
  | .error err => ⟨.returned ⟨none, some err, []⟩, [], fs⟩
  | .ok dir =>
    let r := renderBody w (dir :: fs) dir inp
    ⟨r.outcome, r.commands, RemoveAll w.removeAll dir r.fs⟩

/-- A world in which every call and every tool succeeds. -/
def worldAllOk : World :=
  ⟨.ok "/tmp/texbot1".toList, none, none, none, ([], none), none, none, none, none⟩

/-- A world in which `os.Create` fails (for instance with EMFILE) after the
workspace was made. -/
def worldCreateFails : World :=
  ⟨.ok "/tmp/texbot1".toList, some ⟨"too many open files"⟩, none, none, ([], none),
    none, none, none, none⟩

/-- A world in which writing the source document fails (for instance with
ENOSPC) and everything else succeeds. -/
def worldWriteFails : World :=
  ⟨.ok "/tmp/texbot1".toList, none, some ⟨"no space left on device"⟩, none, ([], none),
    none, none, none, none⟩

/-- A world in which every stage succeeds and the deferred `os.RemoveAll` fails
(for instance with EACCES or EBUSY on a file below the workspace). -/
def worldRemoveFails : World :=
  ⟨.ok "/tmp/texbot1".toList, none, none, none, ([], none), none, none, none,
    some ⟨"permission denied"⟩⟩

/-! ## The matcher: first match of a concatenation, repetition, option and group -/

theorem head_seq {a b : Regex} {inp : List Char} {caps : Caps} {m1 m2 : Match}
    (h1 : (a.matches inp caps).head? = some m1)
    (h2 : (b.matches m1.rest m1.caps).head? = some m2) :
    ((Regex.seq a b).matches inp caps).head?
      = some ⟨m1.consumed ++ m2.consumed, m2.rest, m2.caps⟩ := by
  cases hA : a.matches inp caps with
  | nil => simp [hA] at h1
  | cons x tl =>
    rw [hA] at h1
    simp only [List.head?_cons, Option.some.injEq] at h1
    subst h1
    cases hB : b.matches x.rest x.caps with
    | nil => simp [hB] at h2
    | cons y tl2 =>
      rw [hB] at h2
      simp only [List.head?_cons, Option.some.injEq] at h2
      subst h2
      simp [Regex.matches, hA, hB]

theorem matches_seq_nil {a b : Regex} {inp : List Char} {caps : Caps}
    (h : a.matches inp caps = []) : (Regex.seq a b).matches inp caps = [] := by
  simp [Regex.matches, h]

theorem head_lit (c : Char) (cs : List Char) (caps : Caps) :
    ((lit c).matches (c :: cs) caps).head? = some ⟨[c], cs, caps⟩ := by
  simp [lit, Regex.matches]

theorem matches_lit_ne {c : Char} {inp : List Char} (caps : Caps)
    (h : inp.head? ≠ some c) : (lit c).matches inp caps = [] := by
  cases inp with
  | nil => simp [lit, Regex.matches]
  | cons x xs =>
    have hx : x ≠ c := by simpa using h
    simp [lit, Regex.matches, hx]

theorem head_starSplits (p : Char → Bool) (ws rest : List Char)
    (hws : ∀ c ∈ ws, p c = true) (hrest : ∀ c ∈ rest.head?, p c = false) :
    (starSplits p (ws ++ rest)).head? = some (ws, rest) := by
  induction ws with
  | nil =>
    cases rest with
    | nil => simp [starSplits]
    | cons r rs =>
      have : p r = false := hrest r (by simp)
      simp [starSplits, this]
  | cons w ws ih =>
    have hw : p w = true := hws w (by simp)
    have ih2 := ih (fun c hc => hws c (by simp [hc]))
    simp [starSplits, hw, ih2]

theorem head_star (p : Char → Bool) (ws rest : List Char) (caps : Caps)
    (hws : ∀ c ∈ ws, p c = true) (hrest : ∀ c ∈ rest.head?, p c = false) :
    ((Regex.star p).matches (ws ++ rest) caps).head? = some ⟨ws, rest, caps⟩ := by
  simp [Regex.matches, head_starSplits p ws rest hws hrest]

theorem head_plus (p : Char → Bool) (ws rest : List Char) (caps : Caps)
    (hne : ws ≠ []) (hws : ∀ c ∈ ws, p c = true) (hrest : ∀ c ∈ rest.head?, p c = false) :
    ((Regex.plus p).matches (ws ++ rest) caps).head? = some ⟨ws, rest, caps⟩ := by
  cases ws with
  | nil => exact absurd rfl hne
  | cons w ws =>
    have hw : p w = true := hws w (by simp)
    have h2 := head_starSplits p ws rest (fun c hc => hws c (by simp [hc])) hrest
    simp [Regex.matches, plusSplits, hw, h2]

theorem head_group (i : Nat) {r : Regex} {inp : List Char} {caps : Caps} {m : Match}
    (h : (r.matches inp caps).head? = some m) :
    ((Regex.group i r).matches inp caps).head?
      = some ⟨m.consumed, m.rest, (i, m.consumed) :: m.caps⟩ := by
  simp [Regex.matches, h]

theorem matches_group_nil (i : Nat) {r : Regex} {inp : List Char} {caps : Caps}
    (h : r.matches inp caps = []) : (Regex.group i r).matches inp caps = [] := by
  simp [Regex.matches, h]

theorem head_opt_some {r : Regex} {inp : List Char} {caps : Caps} {m : Match}
    (h : (r.matches inp caps).head? = some m) :
    ((Regex.opt r).matches inp caps).head? = some m := by
  simp [Regex.matches, h]

theorem head_opt_none {r : Regex} {inp : List Char} {caps : Caps}
    (h : r.matches inp caps = []) :
    ((Regex.opt r).matches inp caps).head? = some ⟨[], inp, caps⟩ := by
  simp [Regex.matches, h]

theorem find_of_head {r : Regex} {inp : List Char} {m : Match}
    (h : (r.matches inp []).head? = some m) : r.find inp = some m := by
  cases inp with
  | nil => simpa [Regex.find] using h
  | cons c cs => simp [Regex.find, h]

theorem find_skip {r : Regex} (pre inp : List Char)
    (h : ∀ c ∈ pre, ∀ cs, r.matches (c :: cs) [] = []) :
    r.find (pre ++ inp) = r.find inp := by
  induction pre with
  | nil => rfl
  | cons c cs ih =>
    have h0 := h c (by simp) (cs ++ inp)
    have ih2 := ih (fun c hc => h c (by simp [hc]))
    simp [Regex.find, h0, ih2]

theorem head_SEARCH_EXPR (ws body tail : List Char) (mo : Match)
    (hws : ∀ c ∈ ws, isSpace c = true) (hne : body ≠ [])
    (hfirst : ∀ c ∈ body.head?, isSpace c = false) (hdollar : '$' ∉ body)
    (hopt : (scaleArg.matches tail [(1, body)]).head? = some mo) :
    (SEARCH_EXPR.matches ('$' :: '$' :: (ws ++ (body ++ '$' :: '$' :: tail))) []).head?
      = some ⟨'$' :: '$' :: (ws ++ (body ++ '$' :: '$' :: mo.consumed)), mo.rest, mo.caps⟩ := by
  have hstar1 := head_star isSpace ws (body ++ '$' :: '$' :: tail) []
    hws (by
      cases body with
      | nil => exact absurd rfl hne
      | cons x xs => simpa using hfirst)
  have hplus := head_plus (fun c => !(c == '$')) body ('$' :: '$' :: tail) [] hne
    (by
      intro c hc
      have : c ≠ '$' := fun h => hdollar (h ▸ hc)
      simp [this])
    (by simp)
  have hstar2 := head_star isSpace [] ('$' :: '$' :: tail) [(1, body)]
    (by simp) (by simp [isSpace])
  have h := head_seq (head_lit '$' _ []) (head_seq (head_lit '$' _ [])
    (head_seq hstar1 (head_seq (head_group 1 hplus)
      (head_seq hstar2 (head_seq (head_lit '$' _ _) (head_seq (head_lit '$' _ _) hopt))))))
  simpa [SEARCH_EXPR] using h

theorem head_scaleArg_absent (tail : List Char) (caps : Caps) (h : tail.head? ≠ some '[') :
    (scaleArg.matches tail caps).head? = some ⟨[], tail, caps⟩ := by
  exact head_opt_none (matches_group_nil 2 (matches_seq_nil (matches_lit_ne caps h)))

theorem head_scaleArg_present (d t : List Char) (caps : Caps) (hne : d ≠ [])
    (hd : ∀ c ∈ d, isDigit c = true) :
    (scaleArg.matches ('[' :: (d ++ ']' :: t)) caps).head?
      = some ⟨'[' :: (d ++ [']']), t, (2, '[' :: (d ++ [']'])) :: (3, d) :: caps⟩ := by
  have hplus := head_plus isDigit d (']' :: t) caps hne hd (by simp [isDigit])
  have h := head_opt_some (head_group 2 (head_seq (head_lit '[' _ caps)
    (head_seq (head_group 3 hplus) (head_lit ']' _ _))))
  simpa [scaleArg] using h

theorem ParseString_of_find {input : List Char} {m : Match}
    (h : SEARCH_EXPR.find input = some m) :
    ParseString input =
      if Trim ((m.caps.lookup 1).getD []) [' '] = [] then ⟨[], ⟨0⟩, false⟩
      else if (m.caps.lookup 3).getD [] ≠ [] then
        ⟨Trim ((m.caps.lookup 1).getD []) [' '], ⟨(Atoi ((m.caps.lookup 3).getD [])).1⟩, true⟩
      else ⟨Trim ((m.caps.lookup 1).getD []) [' '], ⟨4⟩, true⟩ := by
  have hr : List.range 3 = [0, 1, 2] := rfl
  simp [ParseString, Regex.FindStringSubmatch, h, hr]

theorem ParseString_of_find_none {input : List Char}
    (h : SEARCH_EXPR.find input = none) : ParseString input = ⟨[], ⟨0⟩, false⟩ := by
  simp [ParseString, Regex.FindStringSubmatch, h]

theorem Trim_spaces (b : List Char) (n : Nat) (hne : b ≠ [])
    (hfirst : ∀ c ∈ b.head?, c ≠ ' ') (hlast : ∀ c ∈ b.getLast?, c ≠ ' ') :
    Trim (b ++ List.replicate n ' ') [' '] = b := by
  have hr : (b ++ List.replicate n ' ').rdropWhile (fun c => decide (c ∈ [' '])) = b := by
    induction n with
    | zero =>
      simp only [List.replicate_zero, List.append_nil]
      rw [List.rdropWhile_eq_self_iff]
      intro hl
      have : b.getLast hl ≠ ' ' := hlast _ (by simp [List.getLast?_eq_getLast _ hl])
      simpa using this
    | succ k ih =>
      rw [List.replicate_succ', ← List.append_assoc, List.rdropWhile_concat_pos _ _ _ (by simp)]
      exact ih
  unfold Trim
  rw [hr, List.dropWhile_eq_self_iff]
  intro hl
  cases b with
  | nil => exact absurd rfl hne
  | cons x xs =>
    have : x ≠ ' ' := hfirst x (by simp)
    simpa using this

theorem SEARCH_EXPR_matches_nil_of_ne (c : Char) (cs : List Char) (h : c ≠ '$') :
    SEARCH_EXPR.matches (c :: cs) [] = [] := by
  unfold SEARCH_EXPR
  exact matches_seq_nil (matches_lit_ne [] (by simpa using h))

theorem isSpace_space_ne {c : Char} (h : isSpace c = false) : c ≠ ' ' := by
  intro hc
  subst hc
  simp [isSpace] at h

/-- The first match on a text whose first `$` opens a block `$$ ws body $$`:
group 1 is the body and the scale argument is matched on what follows. -/
theorem find_first_block (p ws body tail : List Char) (mo : Match)
    (hp : '$' ∉ p) (hws : ∀ c ∈ ws, isSpace c = true) (hne : body ≠ [])
    (hfirst : ∀ c ∈ body.head?, isSpace c = false) (hdollar : '$' ∉ body)
    (hopt : (scaleArg.matches tail [(1, body)]).head? = some mo) :
    SEARCH_EXPR.find (p ++ '$' :: '$' :: (ws ++ (body ++ '$' :: '$' :: tail)))
      = some ⟨'$' :: '$' :: (ws ++ (body ++ '$' :: '$' :: mo.consumed)), mo.rest, mo.caps⟩ := by
  rw [find_skip p _ (fun c hc cs =>
    SEARCH_EXPR_matches_nil_of_ne c cs (fun h => hp (h ▸ hc)))]
  exact find_of_head (head_SEARCH_EXPR ws body tail mo hws hne hfirst hdollar hopt)

/-- C1: the first delimited block of a text wins. For a non-empty body `b`
without `$` whose first and last characters are not whitespace, any numbers `m`
and `n` of padding spaces, a prefix `p` without `$` and a suffix `s` that does
not start with `[`, ParseString returns a match whose expression is exactly `b`
and whose scale is the default 4, whatever `s` contains. -/
theorem ParseString_first_block (p b s : List Char) (m n : Nat)
    (hne : b ≠ []) (hdollar : '$' ∉ b)
    (hfirst : ∀ c ∈ b.head?, isSpace c = false)
    (hlast : ∀ c ∈ b.getLast?, isSpace c = false)
    (hp : '$' ∉ p) (hs : s.head? ≠ some '[') :
    ParseString (p ++ ['$', '$'] ++ List.replicate m ' ' ++ b ++ List.replicate n ' '
        ++ ['$', '$'] ++ s)
      = ⟨b, ⟨4⟩, true⟩ := by
  have hbody : b ++ List.replicate n ' ' ≠ [] := by simp [hne]
  have hhead : ∀ c ∈ (b ++ List.replicate n ' ').head?, isSpace c = false := by
    cases b with
    | nil => exact absurd rfl hne
    | cons x xs => simpa using hfirst
  have hd : '$' ∉ b ++ List.replicate n ' ' := by
    simp only [List.mem_append, not_or]
    refine ⟨hdollar, fun h => ?_⟩
    have := List.eq_of_mem_replicate h
    exact absurd this (by decide)
  have hfind := find_first_block p (List.replicate m ' ') (b ++ List.replicate n ' ') s _
    hp (fun c hc => by rw [List.eq_of_mem_replicate hc]; rfl) hbody hhead hd
    (head_scaleArg_absent s _ hs)
  have hin : p ++ ['$', '$'] ++ List.replicate m ' ' ++ b ++ List.replicate n ' '
      ++ ['$', '$'] ++ s
      = p ++ '$' :: '$' :: (List.replicate m ' ' ++ ((b ++ List.replicate n ' ')
        ++ '$' :: '$' :: s)) := by simp
  rw [hin, ParseString_of_find hfind]
  have htrim := Trim_spaces b n hne (fun c hc => isSpace_space_ne (hfirst c hc))
    (fun c hc => isSpace_space_ne (hlast c hc))
  simp [htrim, hne, List.lookup]

theorem ParseString_first_block_witness :
    ParseString ("say ".toList ++ ['$', '$'] ++ List.replicate 2 ' ' ++ "a b".toList
        ++ List.replicate 3 ' ' ++ ['$', '$'] ++ " or $$c$$[7]".toList)
      = ⟨"a b".toList, ⟨4⟩, true⟩ :=
  ParseString_first_block "say ".toList "a b".toList " or $$c$$[7]".toList 2 3
    (by decide) (by decide) (by decide) (by decide) (by decide) (by decide)

/-! ## strconv.Atoi on texts of digits -/

theorem digitVal_le {c : Char} (h : isDigit c = true) : digitVal c ≤ 9 := by
  simp only [isDigit, Bool.and_eq_true, decide_eq_true_eq] at h
  have h2 : c.val ≤ ('9' : Char).val := h.2
  have h3 : c.toNat ≤ 57 := h2
  unfold digitVal
  omega

theorem isDigit_ne_sign {c : Char} (h : isDigit c = true) : c ≠ '-' ∧ c ≠ '+' := by
  constructor <;> (intro hc; subst hc; revert h; decide)

theorem foldl_digits_ge (d : List Char) (n : Nat) :
    n ≤ d.foldl (fun n c => n * 10 + digitVal c) n := by
  induction d generalizing n with
  | nil => simp
  | cons c cs ih =>
    simp only [List.foldl_cons]
    exact le_trans (by omega) (ih _)

theorem foldl_digits_lt (d : List Char) (n : Nat) (hd : ∀ c ∈ d, isDigit c = true) :
    d.foldl (fun n c => n * 10 + digitVal c) n < (n + 1) * 10 ^ d.length := by
  induction d generalizing n with
  | nil => simp
  | cons c cs ih =>
    have hc := digitVal_le (hd c (by simp))
    have h := ih (n * 10 + digitVal c) (fun x hx => hd x (by simp [hx]))
    simp only [List.foldl_cons, List.length_cons, pow_succ]
    calc _ < (n * 10 + digitVal c + 1) * 10 ^ cs.length := h
      _ ≤ ((n + 1) * 10) * 10 ^ cs.length := Nat.mul_le_mul_right _ (by omega)
      _ = (n + 1) * (10 ^ cs.length * 10) := by ring

theorem atoiFast_digits (d : List Char) (n : Nat) (hd : ∀ c ∈ d, isDigit c = true) :
    atoiFast d (n : Int) = (((d.foldl (fun n c => n * 10 + digitVal c) n : Nat) : Int), none) := by
  induction d generalizing n with
  | nil => simp [atoiFast]
  | cons c cs ih =>
    have hc := hd c (by simp)
    have h := ih (n * 10 + digitVal c) (fun x hx => hd x (by simp [hx]))
    simp only [atoiFast, hc, if_true, List.foldl_cons]
    rw [← h]
    push_cast
    rfl

theorem parseUintLoop_digits (d : List Char) (n : Nat) (hd : ∀ c ∈ d, isDigit c = true)
    (hn : n < 2 ^ 64) :
    parseUintLoop d n =
      if d.foldl (fun n c => n * 10 + digitVal c) n < 2 ^ 64
      then (d.foldl (fun n c => n * 10 + digitVal c) n, none)
      else (maxUint64, some .outOfRange) := by
  induction d generalizing n with
  | nil =>
    simp only [parseUintLoop, List.foldl_nil]
    rw [if_pos hn]
  | cons c cs ih =>
    have hc := hd c (by simp)
    have hv := digitVal_le hc
    have hge := foldl_digits_ge cs (n * 10 + digitVal c)
    have hmax : maxUint64 = 18446744073709551615 := by decide
    simp only [parseUintLoop, hc, Bool.not_true, Bool.false_eq_true, if_false, List.foldl_cons]
    by_cases h1 : n ≥ maxUint64 / 10 + 1
    · have : ¬ cs.foldl (fun n c => n * 10 + digitVal c) (n * 10 + digitVal c) < 2 ^ 64 := by
        rw [hmax] at h1
        omega
      rw [if_pos h1, if_neg this]
    · rw [if_neg h1]
      rw [hmax] at h1
      by_cases h2 : n * 10 + digitVal c < 2 ^ 64
      · have hmod : (n * 10 + digitVal c) % 2 ^ 64 = n * 10 + digitVal c := Nat.mod_eq_of_lt h2
        have hno : ¬ ((n * 10 + digitVal c) < n * 10 ∨ (n * 10 + digitVal c) > maxUint64) := by
          rw [hmax]
          omega
        rw [hmod, if_neg hno]
        exact ih _ (fun x hx => hd x (by simp [hx])) h2
      · have hov : (n * 10 + digitVal c) % 2 ^ 64 < n * 10 := by omega
        have : ¬ cs.foldl (fun n c => n * 10 + digitVal c) (n * 10 + digitVal c) < 2 ^ 64 := by
          omega
        rw [if_pos (Or.inl hov), if_neg this]

theorem ParseUint_digits (d : List Char) (hne : d ≠ []) (hd : ∀ c ∈ d, isDigit c = true) :
    ParseUint d =
      if decVal d < 2 ^ 64 then (decVal d, none) else (maxUint64, some .outOfRange) := by
  unfold ParseUint
  rw [if_neg hne]
  exact parseUintLoop_digits d 0 hd (by norm_num)

theorem ParseInt_digits (d : List Char) (hne : d ≠ []) (hd : ∀ c ∈ d, isDigit c = true) :
    (ParseInt d).1 = min (decVal d : Int) (2 ^ 63 - 1) := by
  cases d with
  | nil => exact absurd rfl hne
  | cons c cs =>
    have hsign := isDigit_ne_sign (hd c (by simp))
    have hU := ParseUint_digits (c :: cs) hne hd
    simp only [ParseInt, beq_iff_eq, hsign.1, hsign.2, or_self, if_false]
    rw [hU]
    have hmax : maxUint64 = 18446744073709551615 := by decide
    rw [hmax]
    generalize decVal (c :: cs) = v
    by_cases h64 : v < 2 ^ 64
    · rw [if_pos h64]
      by_cases h63 : v ≥ 2 ^ 63
      · have h63n : 9223372036854775808 ≤ v := h63
        simp [h63n, hsign.1]
        omega
      · have h63n : ¬ 9223372036854775808 ≤ v := h63
        simp [h63n, hsign.1]
        omega
    · rw [if_neg h64]
      simp [hsign.1]
      omega

theorem atoiFast_decVal (d : List Char) (hd : ∀ c ∈ d, isDigit c = true) :
    atoiFast d 0 = ((decVal d : Int), none) := by
  simpa [decVal] using atoiFast_digits d 0 hd

/-- On a non-empty text of digits `Atoi` returns the denoted integer, saturated
at the largest 64-bit `int`. -/
theorem Atoi_digits (d : List Char) (hne : d ≠ []) (hd : ∀ c ∈ d, isDigit c = true) :
    (Atoi d).1 = min (decVal d : Int) (2 ^ 63 - 1) := by
  by_cases hlen : d.length < 19
  · have hlt : decVal d < (0 + 1) * 10 ^ d.length := foldl_digits_lt d 0 hd
    have hpow : (0 + 1) * 10 ^ d.length ≤ 10 ^ 18 := by
      simpa using Nat.pow_le_pow_right (by norm_num : 0 < 10) (by omega : d.length ≤ 18)
    have hval : (decVal d : Int) < 10 ^ 18 := by
      have : decVal d < 10 ^ 18 := lt_of_lt_of_le hlt hpow
      exact_mod_cast this
    have hfast := atoiFast_decVal d hd
    cases d with
    | nil => exact absurd rfl hne
    | cons c cs =>
      have hsign := isDigit_ne_sign (hd c (by simp))
      have hl : 0 < (c :: cs).length ∧ (c :: cs).length < 19 := ⟨by simp, hlen⟩
      simp only [Atoi, hl, and_self, if_true]
      simp only [beq_iff_eq, hsign.1, hsign.2, or_self, if_false]
      rw [hfast]
      simp only [List.length_cons, Nat.lt_one_iff, Nat.add_one_ne_zero, if_false]
      rw [min_eq_left]
      omega
  · have hl : ¬ (0 < d.length ∧ d.length < 19) := fun h => hlen h.2
    unfold Atoi
    rw [if_neg hl]
    exact ParseInt_digits d hne hd

/-! ## ParseString with a scale argument -/

/-- C2 (counterexample): for the body `x` and the digits `9223372036854775808`
(2^63) the scale returned is 2^63 - 1, not the integer the digits denote. -/
theorem ParseString_scale_saturated :
    ParseString ("$$x$$[".toList ++ "9223372036854775808".toList ++ "]".toList)
        = ⟨"x".toList, ⟨9223372036854775807⟩, true⟩
      ∧ (ParseString ("$$x$$[".toList ++ "9223372036854775808".toList ++ "]".toList)).Config.Scale
        ≠ (decVal "9223372036854775808".toList : Int) := by
  decide

/-- C2 (amended): for a non-empty body `b` without `$` and without leading or
trailing whitespace and a non-empty text `d` of decimal digits, ParseString of
`$$b$$[d]` returns a match with expression `b` and with the scale that `d`
denotes in base 10, saturated at the largest 64-bit integer 2^63 - 1. -/
theorem ParseString_scale_arg (b d : List Char)
    (hne : b ≠ []) (hdollar : '$' ∉ b)
    (hfirst : ∀ c ∈ b.head?, isSpace c = false)
    (hlast : ∀ c ∈ b.getLast?, isSpace c = false)
    (hdne : d ≠ []) (hd : ∀ c ∈ d, isDigit c = true) :
    ParseString (['$', '$'] ++ b ++ ['$', '$', '['] ++ d ++ [']'])
      = ⟨b, ⟨min (decVal d : Int) (2 ^ 63 - 1)⟩, true⟩ := by
  have hfind := find_first_block [] [] b ('[' :: (d ++ [']'])) _
    (by simp) (by simp) hne hfirst hdollar (head_scaleArg_present d [] [(1, b)] hdne hd)
  have hin : ['$', '$'] ++ b ++ ['$', '$', '['] ++ d ++ [']']
      = [] ++ '$' :: '$' :: ([] ++ (b ++ '$' :: '$' :: '[' :: (d ++ [']']))) := by simp
  rw [hin, ParseString_of_find hfind]
  have htrim : Trim b [' '] = b := by
    simpa using Trim_spaces b 0 hne (fun c hc => isSpace_space_ne (hfirst c hc))
      (fun c hc => isSpace_space_ne (hlast c hc))
  simp [htrim, hne, hdne, List.lookup, Atoi_digits d hdne hd]

theorem ParseString_scale_arg_witness :
    ParseString (['$', '$'] ++ "hello".toList ++ ['$', '$', '['] ++ "3".toList ++ [']'])
      = ⟨"hello".toList, ⟨min (decVal "3".toList : Int) (2 ^ 63 - 1)⟩, true⟩ :=
  ParseString_scale_arg "hello".toList "3".toList
    (by decide) (by decide) (by decide) (by decide) (by decide) (by decide)

/-- C3 (failing input): on `$$a<TAB>$$` the expression returned is `a<TAB>`,
which ends with a whitespace character; only U+0020 is trimmed. -/
theorem ParseString_keeps_trailing_tab :
    ParseString "$$a\t$$".toList = ⟨"a\t".toList, ⟨4⟩, true⟩
      ∧ ∃ c ∈ (ParseString "$$a\t$$".toList).Expr.getLast?, isSpace c = true := by
  decide

/-- C4 (failing input): on `$$<TAB>$$`, a block whose body is one whitespace
character, ParseString reports a match whose expression is that tab. -/
theorem ParseString_tab_body_matches :
    ParseString ("$$".toList ++ "\t".toList ++ "$$".toList) = ⟨"\t".toList, ⟨4⟩, true⟩ := by
  decide

/-! ## What any match of the pattern captures -/

theorem mem_seq {a b : Regex} {inp : List Char} {caps : Caps} {m : Match}
    (h : m ∈ (Regex.seq a b).matches inp caps) :
    ∃ m1 ∈ a.matches inp caps, ∃ m2 ∈ b.matches m1.rest m1.caps,
      m = ⟨m1.consumed ++ m2.consumed, m2.rest, m2.caps⟩ := by
  simp only [Regex.matches, List.mem_flatMap, List.mem_map] at h
  obtain ⟨m1, h1, m2, h2, rfl⟩ := h
  exact ⟨m1, h1, m2, h2, rfl⟩

theorem mem_lit {c : Char} {inp : List Char} {caps : Caps} {m : Match}
    (h : m ∈ (lit c).matches inp caps) : m = ⟨[c], inp.tail, caps⟩ ∧ inp.head? = some c := by
  cases inp with
  | nil => simp [lit, Regex.matches] at h
  | cons x xs =>
    by_cases hx : x = c
    · subst hx
      simpa [lit, Regex.matches] using h
    · simp [lit, Regex.matches, hx] at h

theorem mem_starSplits {p : Char → Bool} {inp : List Char} {s : List Char × List Char}
    (h : s ∈ starSplits p inp) : s.1 ++ s.2 = inp ∧ ∀ c ∈ s.1, p c = true := by
  induction inp generalizing s with
  | nil =>
    simp only [starSplits, List.mem_singleton] at h
    subst h
    simp
  | cons x xs ih =>
    by_cases hx : p x = true
    · simp only [starSplits, hx, if_true, List.mem_append, List.mem_map,
        List.mem_singleton] at h
      rcases h with ⟨t, ht, rfl⟩ | rfl
      · obtain ⟨h1, h2⟩ := ih ht
        refine ⟨by simp [h1], ?_⟩
        intro c hc
        rcases List.mem_cons.mp hc with rfl | hc
        · exact hx
        · exact h2 c hc
      · simp
    · simp only [starSplits, hx, if_false, List.mem_singleton, Bool.false_eq_true] at h
      subst h
      simp

theorem mem_plusSplits {p : Char → Bool} {inp : List Char} {s : List Char × List Char}
    (h : s ∈ plusSplits p inp) : s.1 ++ s.2 = inp ∧ s.1 ≠ [] ∧ ∀ c ∈ s.1, p c = true := by
  cases inp with
  | nil => simp [plusSplits] at h
  | cons x xs =>
    by_cases hx : p x = true
    · simp only [plusSplits, hx, if_true, List.mem_map] at h
      obtain ⟨t, ht, rfl⟩ := h
      obtain ⟨h1, h2⟩ := mem_starSplits ht
      refine ⟨by simp [h1], by simp, ?_⟩
      intro c hc
      rcases List.mem_cons.mp hc with rfl | hc
      · exact hx
      · exact h2 c hc
    · simp [plusSplits, hx] at h

theorem mem_star {p : Char → Bool} {inp : List Char} {caps : Caps} {m : Match}
    (h : m ∈ (Regex.star p).matches inp caps) :
    m.caps = caps ∧ m.consumed ++ m.rest = inp ∧ ∀ c ∈ m.consumed, p c = true := by
  simp only [Regex.matches, List.mem_map] at h
  obtain ⟨s, hs, rfl⟩ := h
  exact ⟨rfl, mem_starSplits hs⟩

theorem mem_plus {p : Char → Bool} {inp : List Char} {caps : Caps} {m : Match}
    (h : m ∈ (Regex.plus p).matches inp caps) :
    m.caps = caps ∧ m.consumed ++ m.rest = inp ∧ m.consumed ≠ [] ∧
      ∀ c ∈ m.consumed, p c = true := by
  simp only [Regex.matches, List.mem_map] at h
  obtain ⟨s, hs, rfl⟩ := h
  exact ⟨rfl, mem_plusSplits hs⟩

theorem mem_group {i : Nat} {r : Regex} {inp : List Char} {caps : Caps} {m : Match}
    (h : m ∈ (Regex.group i r).matches inp caps) :
    ∃ m1 ∈ r.matches inp caps, m = ⟨m1.consumed, m1.rest, (i, m1.consumed) :: m1.caps⟩ := by
  simp only [Regex.matches, List.mem_map] at h
  obtain ⟨m1, h1, rfl⟩ := h
  exact ⟨m1, h1, rfl⟩

theorem mem_opt {r : Regex} {inp : List Char} {caps : Caps} {m : Match}
    (h : m ∈ (Regex.opt r).matches inp caps) :
    m ∈ r.matches inp caps ∨ m = ⟨[], inp, caps⟩ := by
  simpa [Regex.matches] using h

theorem find_mem {r : Regex} {inp : List Char} {m : Match} (h : r.find inp = some m) :
    ∃ pre suf, inp = pre ++ suf ∧ m ∈ r.matches suf [] := by
  induction inp with
  | nil =>
    simp only [Regex.find] at h
    exact ⟨[], [], rfl, List.mem_of_mem_head? h⟩
  | cons c cs ih =>
    simp only [Regex.find] at h
    cases hh : (r.matches (c :: cs) []).head? with
    | some m0 =>
      rw [hh] at h
      simp only [Option.some.injEq] at h
      subst h
      exact ⟨[], c :: cs, rfl, List.mem_of_mem_head? hh⟩
    | none =>
      rw [hh] at h
      obtain ⟨pre, suf, hps, hm⟩ := ih h
      exact ⟨c :: pre, suf, by simp [hps], hm⟩

/-- The groups of a match of the scale argument: nothing new, or groups 2 and 3
with group 3 a non-empty text of digits. -/
theorem mem_scaleArg {inp : List Char} {caps : Caps} {m : Match}
    (h : m ∈ scaleArg.matches inp caps) :
    m.caps = caps ∨ ∃ d, m.caps = (2, '[' :: (d ++ [']'])) :: (3, d) :: caps ∧ d ≠ [] ∧
      ∀ c ∈ d, isDigit c = true := by
  rcases mem_opt h with h | rfl
  · right
    obtain ⟨m2, h2, rfl⟩ := mem_group h
    obtain ⟨ma, ha, mb, hb, rfl⟩ := mem_seq h2
    obtain ⟨rfl, -⟩ := mem_lit ha
    obtain ⟨mc, hc, md, hd, rfl⟩ := mem_seq hb
    obtain ⟨m3, h3, rfl⟩ := mem_group hc
    obtain ⟨rfl, -⟩ := mem_lit hd
    obtain ⟨hcaps, -, hne, hdig⟩ := mem_plus h3
    exact ⟨m3.consumed, by simp [hcaps], hne, hdig⟩
  · exact Or.inl rfl

/-- The groups of any match of `SEARCH_EXPR`: group 1 is a non-empty text without
`$`, and group 3, when present, is a non-empty text of digits. -/
theorem mem_SEARCH_EXPR {inp : List Char} {m : Match} (h : m ∈ SEARCH_EXPR.matches inp []) :
    ∃ body, body ≠ [] ∧ '$' ∉ body ∧
      (m.caps = [(1, body)] ∨ ∃ d, m.caps = [(2, '[' :: (d ++ [']'])), (3, d), (1, body)] ∧
        d ≠ [] ∧ ∀ c ∈ d, isDigit c = true) := by
  unfold SEARCH_EXPR at h
  obtain ⟨a1, h1, b1, hb1, rfl⟩ := mem_seq h
  obtain ⟨rfl, -⟩ := mem_lit h1
  obtain ⟨a2, h2, b2, hb2, rfl⟩ := mem_seq hb1
  obtain ⟨rfl, -⟩ := mem_lit h2
  obtain ⟨a3, h3, b3, hb3, rfl⟩ := mem_seq hb2
  obtain ⟨hc3, -, -⟩ := mem_star h3
  obtain ⟨a4, h4, b4, hb4, rfl⟩ := mem_seq hb3
  obtain ⟨g, hg, rfl⟩ := mem_group h4
  obtain ⟨hcg, -, hgne, hgp⟩ := mem_plus hg
  obtain ⟨a5, h5, b5, hb5, rfl⟩ := mem_seq hb4
  obtain ⟨hc5, -, -⟩ := mem_star h5
  obtain ⟨a6, h6, b6, hb6, rfl⟩ := mem_seq hb5
  obtain ⟨rfl, -⟩ := mem_lit h6
  obtain ⟨a7, h7, b7, hb7, rfl⟩ := mem_seq hb6
  obtain ⟨rfl, -⟩ := mem_lit h7
  have hcaps : a5.caps = [(1, g.consumed)] := by
    rw [hc5]
    simp only [hcg, hc3]
  refine ⟨g.consumed, hgne, ?_, ?_⟩
  · intro hmem
    have := hgp _ hmem
    simp at this
  · rcases mem_scaleArg hb7 with h | ⟨d, h, hd⟩
    · left
      simpa [hcaps] using h
    · right
      exact ⟨d, by simpa [hcaps] using h, hd⟩

theorem FindStringSubmatch_three {input : List Char} {m : Match}
    (h : SEARCH_EXPR.find input = some m) :
    (SEARCH_EXPR.FindStringSubmatch 3 input).getD 3 [] = (m.caps.lookup 3).getD [] := by
  have hr : List.range 3 = [0, 1, 2] := rfl
  simp [Regex.FindStringSubmatch, h, hr]

/-- C5 (counterexample): `$$x$$[0]` is a match whose scale is 0. -/
theorem ParseString_scale_zero :
    (ParseString "$$x$$[0]".toList).HasMatch = true
      ∧ ¬ (1 ≤ (ParseString "$$x$$[0]".toList).Config.Scale) := by
  decide

/-- The scale of every match: the default 4 without a scale argument, otherwise
the integer the matched digits denote, saturated at 2^63 - 1. -/
theorem ParseString_scale_value (input : List Char)
    (h : (ParseString input).HasMatch = true) :
    (ParseString input).Config.Scale
      = if (SEARCH_EXPR.FindStringSubmatch 3 input).getD 3 [] = [] then 4
        else min (decVal ((SEARCH_EXPR.FindStringSubmatch 3 input).getD 3 []) : Int)
          (2 ^ 63 - 1) := by
  cases hf : SEARCH_EXPR.find input with
  | none =>
    rw [ParseString_of_find_none hf] at h
    simp at h
  | some m =>
    obtain ⟨pre, suf, -, hm⟩ := find_mem hf
    obtain ⟨body, -, -, hcaps⟩ := mem_SEARCH_EXPR hm
    rw [FindStringSubmatch_three hf]
    rw [ParseString_of_find hf] at h ⊢
    rcases hcaps with hc | ⟨d, hc, hdne, hd⟩
    · rw [hc] at h ⊢
      by_cases ht : Trim body [' '] = []
      · simp [ht, List.lookup] at h
      · simp [ht, List.lookup]
    · rw [hc] at h ⊢
      by_cases ht : Trim body [' '] = []
      · simp [ht, List.lookup] at h
      · simp [ht, List.lookup, hdne, Atoi_digits d hdne hd]

/-- C5 (amended): on every text with a match the scale is 4 without a scale
argument and otherwise the integer the matched digits denote, saturated at
2^63 - 1. So the scale is 0 when the digits of the matched scale argument denote
0, and in every other case it is an integer between 1 and 2^63 - 1. -/
theorem ParseString_scale_range (input : List Char)
    (h : (ParseString input).HasMatch = true) :
    ((ParseString input).Config.Scale
        = if (SEARCH_EXPR.FindStringSubmatch 3 input).getD 3 [] = [] then 4
          else min (decVal ((SEARCH_EXPR.FindStringSubmatch 3 input).getD 3 []) : Int)
            (2 ^ 63 - 1))
      ∧ (((SEARCH_EXPR.FindStringSubmatch 3 input).getD 3 [] ≠ []
            ∧ decVal ((SEARCH_EXPR.FindStringSubmatch 3 input).getD 3 []) = 0)
          → (ParseString input).Config.Scale = 0)
      ∧ (¬ ((SEARCH_EXPR.FindStringSubmatch 3 input).getD 3 [] ≠ []
            ∧ decVal ((SEARCH_EXPR.FindStringSubmatch 3 input).getD 3 []) = 0)
          → 1 ≤ (ParseString input).Config.Scale
            ∧ (ParseString input).Config.Scale ≤ 2 ^ 63 - 1) := by
  have hv := ParseString_scale_value input h
  generalize (SEARCH_EXPR.FindStringSubmatch 3 input).getD 3 [] = d at hv ⊢
  generalize (ParseString input).Config.Scale = sc at hv ⊢
  refine ⟨hv, ?_, ?_⟩
  · rintro ⟨hne, hz⟩
    rw [hv, if_neg hne, hz]
    simp
  · intro hnot
    by_cases hd : d = []
    · rw [hv, if_pos hd]
      norm_num
    · have hz : decVal d ≠ 0 := fun hz => hnot ⟨hd, hz⟩
      have hpos : (1 : Int) ≤ (decVal d : Int) := by
        have : 1 ≤ decVal d := Nat.one_le_iff_ne_zero.mpr hz
        exact_mod_cast this
      rw [hv, if_neg hd]
      constructor
      · exact le_min hpos (by norm_num)
      · exact min_le_right _ _

theorem ParseString_scale_range_witness :
    ((ParseString "$$x$$[000]".toList).Config.Scale
        = if (SEARCH_EXPR.FindStringSubmatch 3 "$$x$$[000]".toList).getD 3 [] = [] then 4
          else min
            (decVal ((SEARCH_EXPR.FindStringSubmatch 3 "$$x$$[000]".toList).getD 3 []) : Int)
            (2 ^ 63 - 1))
      ∧ (((SEARCH_EXPR.FindStringSubmatch 3 "$$x$$[000]".toList).getD 3 [] ≠ []
            ∧ decVal ((SEARCH_EXPR.FindStringSubmatch 3 "$$x$$[000]".toList).getD 3 []) = 0)
          → (ParseString "$$x$$[000]".toList).Config.Scale = 0)
      ∧ (¬ ((SEARCH_EXPR.FindStringSubmatch 3 "$$x$$[000]".toList).getD 3 [] ≠ []
            ∧ decVal ((SEARCH_EXPR.FindStringSubmatch 3 "$$x$$[000]".toList).getD 3 []) = 0)
          → 1 ≤ (ParseString "$$x$$[000]".toList).Config.Scale
            ∧ (ParseString "$$x$$[000]".toList).Config.Scale ≤ 2 ^ 63 - 1) :=
  ParseString_scale_range "$$x$$[000]".toList (by decide)

/-! ## Backtracking of a greedy repetition -/

theorem flatMap_starSplits {β : Type} (p : Char → Bool) (f : List Char × List Char → List β)
    (y : List Char) (hfail : ∀ s ∈ starSplits p y, s.1 ≠ [] → f s = []) :
    (starSplits p y).flatMap f = f ([], y) := by
  cases y with
  | nil => simp [starSplits]
  | cons c cs =>
    by_cases hc : p c = true
    · have hfront : ((starSplits p cs).map (fun s => (c :: s.1, s.2))).flatMap f = [] := by
        rw [List.flatMap_eq_nil_iff]
        intro s hs
        apply hfail s _ _
        · simp only [starSplits, hc, if_true, List.mem_append]
          exact Or.inl hs
        · obtain ⟨t, -, rfl⟩ := List.mem_map.mp hs
          simp
      simp only [starSplits, hc, if_true, List.flatMap_append, hfront, List.nil_append]
      simp
    · simp [starSplits, hc]

theorem head_flatMap_starSplits {β : Type} (p : Char → Bool)
    (f : List Char × List Char → List β) (x y : List Char) (b : β)
    (hx : ∀ c ∈ x, p c = true) (hb : (f (x, y)).head? = some b)
    (hfail : ∀ s ∈ starSplits p y, s.1 ≠ [] → f (x ++ s.1, s.2) = []) :
    ((starSplits p (x ++ y)).flatMap f).head? = some b := by
  induction x generalizing f with
  | nil =>
    have := flatMap_starSplits p f y (fun s hs hne => by simpa using hfail s hs hne)
    simpa [this] using hb
  | cons c cs ih =>
    have hc : p c = true := hx c (by simp)
    have h := ih (fun s => f (c :: s.1, s.2)) (fun a ha => hx a (by simp [ha])) hb
      (fun s hs hne => by simpa using hfail s hs hne)
    rw [List.cons_append]
    simp only [starSplits, hc, if_true, List.flatMap_append, List.head?_append,
      List.flatMap_map]
    rw [h]
    rfl

/-- A greedy `(p+)` followed by `b`: among the splits after which `b` matches,
the one with the longest repetition is taken. -/
theorem head_group_plus_seq (i : Nat) (p : Char → Bool) (b : Regex) (x y : List Char)
    (caps : Caps) (m2 : Match) (hne : x ≠ []) (hx : ∀ c ∈ x, p c = true)
    (hb : (b.matches y ((i, x) :: caps)).head? = some m2)
    (hfail : ∀ s ∈ starSplits p y, s.1 ≠ [] → ∀ caps2, b.matches s.2 caps2 = []) :
    ((Regex.seq (.group i (.plus p)) b).matches (x ++ y) caps).head?
      = some ⟨x ++ m2.consumed, m2.rest, m2.caps⟩ := by
  cases x with
  | nil => exact absurd rfl hne
  | cons c cs =>
    have hc : p c = true := hx c (by simp)
    have h := head_flatMap_starSplits p
      (fun s => (b.matches s.2 ((i, c :: s.1) :: caps)).map
        (fun m => (⟨c :: s.1 ++ m.consumed, m.rest, m.caps⟩ : Match)))
      cs y ⟨c :: cs ++ m2.consumed, m2.rest, m2.caps⟩
      (fun a ha => hx a (by simp [ha])) (by simp [hb])
      (fun s hs hne2 => by simp [hfail s hs hne2])
    simpa [Regex.matches, plusSplits, hc, List.flatMap_map] using h

theorem mem_lit_seq {c : Char} {b : Regex} {inp : List Char} {caps : Caps} {m : Match}
    (h : m ∈ (Regex.seq (lit c) b).matches inp caps) :
    ∃ tl, inp = c :: tl ∧ ∃ m2 ∈ b.matches tl caps, m = ⟨c :: m2.consumed, m2.rest, m2.caps⟩ := by
  obtain ⟨m1, h1, m2, h2, rfl⟩ := mem_seq h
  obtain ⟨rfl, hh⟩ := mem_lit h1
  cases inp with
  | nil => simp at hh
  | cons x xs =>
    simp only [List.head?_cons, Option.some.injEq] at hh
    subst hh
    exact ⟨xs, rfl, m2, h2, rfl⟩

theorem mem_noPages {inp : List Char} {caps : Caps} {m : Match}
    (h : m ∈ noPages.matches inp caps) : "\nNo pages".toList <+: inp := by
  unfold noPages at h
  obtain ⟨t1, rfl, m1, h1, -⟩ := mem_lit_seq h
  obtain ⟨t2, rfl, m2, h2, -⟩ := mem_lit_seq h1
  obtain ⟨t3, rfl, m3, h3, -⟩ := mem_lit_seq h2
  obtain ⟨t4, rfl, m4, h4, -⟩ := mem_lit_seq h3
  obtain ⟨t5, rfl, m5, h5, -⟩ := mem_lit_seq h4
  obtain ⟨t6, rfl, m6, h6, -⟩ := mem_lit_seq h5
  obtain ⟨t7, rfl, m7, h7, -⟩ := mem_lit_seq h6
  obtain ⟨t8, rfl, m8, h8, -⟩ := mem_lit_seq h7
  obtain ⟨-, hh⟩ := mem_lit h8
  cases t8 with
  | nil => simp at hh
  | cons x xs =>
    simp only [List.head?_cons, Option.some.injEq] at hh
    subst hh
    exact ⟨xs, rfl⟩

theorem head_noPages (post : List Char) (caps : Caps) :
    (noPages.matches ("\nNo pages".toList ++ post) caps).head?
      = some ⟨"\nNo pages".toList, post, caps⟩ := by
  have h := head_seq (head_lit '\n' _ caps) (head_seq (head_lit 'N' _ _)
    (head_seq (head_lit 'o' _ _) (head_seq (head_lit ' ' _ _) (head_seq (head_lit 'p' _ _)
      (head_seq (head_lit 'a' _ _) (head_seq (head_lit 'g' _ _)
        (head_seq (head_lit 'e' _ _) (head_lit 's' post _))))))))
  simpa [noPages] using h

theorem find_skip_prefix {r : Regex} (pre inp : List Char)
    (h : ∀ u c v, pre = u ++ c :: v → r.matches (c :: (v ++ inp)) [] = []) :
    r.find (pre ++ inp) = r.find inp := by
  induction pre with
  | nil => rfl
  | cons c cs ih =>
    have h0 := h [] c cs rfl
    have ih2 := ih (fun u a v huv => h (c :: u) a v (by simp [huv]))
    simp [Regex.find, h0, ih2]

/-! ## getLatexParseError -/

theorem PARSE_ERROR_EXPR_matches_nil (u : List Char) (c : Char) (v rest : List Char)
    (hpre : ¬ "\n! ".toList <:+: (u ++ c :: v) ++ "\n!".toList) :
    PARSE_ERROR_EXPR.matches (c :: (v ++ ("\n! ".toList ++ rest))) [] = [] := by
  rw [List.eq_nil_iff_forall_not_mem]
  intro m hm
  unfold PARSE_ERROR_EXPR at hm
  obtain ⟨t1, e1, m1, h1, -⟩ := mem_lit_seq hm
  obtain ⟨t2, rfl, m2, h2, -⟩ := mem_lit_seq h1
  obtain ⟨t3, rfl, m3, h3, -⟩ := mem_lit_seq h2
  apply hpre
  cases v with
  | nil =>
    simp only [String.toList, List.nil_append, List.cons_append, List.cons.injEq] at e1
    exact absurd e1.2.1 (by decide)
  | cons a v2 =>
    cases v2 with
    | nil =>
      simp only [String.toList, List.nil_append, List.cons_append, List.cons.injEq] at e1
      exact absurd e1.2.2.1 (by decide)
    | cons b v3 =>
      simp only [List.cons_append, List.cons.injEq] at e1
      obtain ⟨rfl, rfl, rfl, -⟩ := e1
      exact ⟨u, v3 ++ "\n!".toList, by simp⟩

theorem noPages_matches_nil (post : List Char) (caps : Caps) (s : List Char × List Char)
    (hpost : ¬ "\nNo pages".toList <:+: "No pages".toList ++ post)
    (hs : s.1 ++ s.2 = "\nNo pages".toList ++ post) (hne : s.1 ≠ []) :
    noPages.matches s.2 caps = [] := by
  rw [List.eq_nil_iff_forall_not_mem]
  intro m hm
  obtain ⟨t, ht⟩ := mem_noPages hm
  apply hpost
  obtain ⟨s1, s2⟩ := s
  cases s1 with
  | nil => exact absurd rfl hne
  | cons a s1 =>
    simp only [String.toList, List.cons_append, List.cons.injEq] at hs
    refine ⟨s1, t, ?_⟩
    rw [List.append_assoc, ht]
    exact hs.2

theorem getLatexParseError_of_find {output : List Char} {m : Match}
    (h : PARSE_ERROR_EXPR.find output = some m) :
    getLatexParseError output = (m.caps.lookup 1).getD [] := by
  have hr : List.range 1 = [0] := rfl
  simp [getLatexParseError, Regex.FindStringSubmatch, h, hr]

/-- C6 (counterexample): with two `No pages` lines after the error line the text
returned runs to the last of them and contains the marker `No pages`. -/
theorem getLatexParseError_two_markers :
    getLatexParseError "log\n! a\nNo pages\nNo pages of output.\n".toList
        = "a\nNo pages".toList
      ∧ getLatexParseError "log\n! a\nNo pages\nNo pages of output.\n".toList
        ≠ "a".toList := by
  decide

/-- C6 (amended): when the first `\n! ` of the output is followed by a non-empty
text `reason` and then by `\nNo pages`, and no later `\nNo pages` follows, the
diagnostic returned is exactly `reason`: the text after the first line break
plus `! ` up to the line break before the last `No pages` line start. -/
theorem getLatexParseError_between (pre reason post : List Char)
    (hpre : ¬ "\n! ".toList <:+: pre ++ "\n!".toList)
    (hne : reason ≠ [])
    (hpost : ¬ "\nNo pages".toList <:+: "No pages".toList ++ post) :
    getLatexParseError (pre ++ "\n! ".toList ++ reason ++ "\nNo pages".toList ++ post)
      = reason := by
  have hin : pre ++ "\n! ".toList ++ reason ++ "\nNo pages".toList ++ post
      = pre ++ ("\n! ".toList ++ (reason ++ ("\nNo pages".toList ++ post))) := by simp
  have hskip := find_skip_prefix (r := PARSE_ERROR_EXPR) pre
    ("\n! ".toList ++ (reason ++ ("\nNo pages".toList ++ post)))
    (fun u c v huv => PARSE_ERROR_EXPR_matches_nil u c v _ (huv ▸ hpre))
  have hgroup := head_group_plus_seq 1 (fun c => isWord c || !isWord c) noPages reason
    ("\nNo pages".toList ++ post) [] _ hne (by intro c _; simp)
    (head_noPages post _)
    (fun s hs hne2 caps2 =>
      noPages_matches_nil post caps2 s hpost (mem_starSplits hs).1 hne2)
  have hhead : (PARSE_ERROR_EXPR.matches
      ("\n! ".toList ++ (reason ++ ("\nNo pages".toList ++ post))) []).head?
      = some ⟨"\n! ".toList ++ (reason ++ "\nNo pages".toList), post, [(1, reason)]⟩ := by
    have h := head_seq (head_lit '\n' _ []) (head_seq (head_lit '!' _ [])
      (head_seq (head_lit ' ' _ []) hgroup))
    simpa [PARSE_ERROR_EXPR] using h
  rw [hin, getLatexParseError_of_find (hskip.trans (find_of_head hhead))]
  simp [List.lookup]

theorem getLatexParseError_between_witness :
    getLatexParseError ("This is TeX".toList ++ "\n! ".toList ++ "Missing $ inserted.".toList
        ++ "\nNo pages".toList ++ " of output.\n".toList)
      = "Missing $ inserted.".toList :=
  getLatexParseError_between "This is TeX".toList "Missing $ inserted.".toList
    " of output.\n".toList (by decide) (by decide) (by decide)

/-! ## Render -/

/-- Whenever `Render` returns a result, exactly one of `File` and `Err` is set. -/
theorem Render_result_exclusive (w : World) (fs : List (List Char)) (inp : ParsedString)
    (r : RenderResult) (h : (Render w fs inp).outcome = .returned r) :
    (r.File.isSome = true ∧ r.Err = none) ∨ (r.File = none ∧ r.Err.isSome = true) := by
  obtain ⟨mk, cr, ws, cl, ⟨out, le⟩, dv, ik, op, rm⟩ := w
  cases mk <;> cases cr <;> cases le <;> cases dv <;> cases ik <;> cases op <;>
    simp [Render, renderBody] at h <;> subst h <;> simp

/-- C7 (failing input): when `os.Create` fails after the workspace was made,
`Render` ends in a panic and returns no RenderResult at all. -/
theorem Render_create_failure_panics :
    (Render worldCreateFails [] ⟨"x".toList, ⟨4⟩, true⟩).outcome = .panicked
      ∧ (Render worldCreateFails [] ⟨"x".toList, ⟨4⟩, true⟩).commands = [] := by
  decide

/-- C9 (failing input): when writing the source document fails, `Render` goes on,
runs all three tools and returns the image with no error. -/
theorem Render_write_failure_ignored :
    (Render worldWriteFails [] ⟨"x".toList, ⟨4⟩, true⟩).outcome
        = .returned ⟨some ⟨"/tmp/texbot1/source.tex.png".toList⟩, none, []⟩
      ∧ (Render worldWriteFails [] ⟨"x".toList, ⟨4⟩, true⟩).commands.map Command.tool
        = [.latex, .dvisvgm, .inkscape] := by
  decide

theorem mem_RemoveAll {dir p : List Char} {fs : List (List Char)}
    (h : p ∈ RemoveAll none dir fs) : p ≠ dir ∧ ¬ (dir ++ ['/']) <+: p := by
  simp only [RemoveAll, List.mem_filter, Bool.not_eq_true', Bool.or_eq_false_iff,
    beq_eq_false_iff_ne, ne_eq] at h
  refine ⟨h.2.1, fun hp => ?_⟩
  have := List.isPrefixOf_iff_prefix.mpr hp
  rw [this] at h
  exact absurd h.2.2 (by simp)

/-- The body of `Render` removes nothing: every path it starts with is still
there when it ends. -/
theorem renderBody_keeps (w : World) (fs : List (List Char)) (dir : List Char)
    (inp : ParsedString) (p : List Char) (hp : p ∈ fs) :
    p ∈ (renderBody w fs dir inp).fs := by
  obtain ⟨mk, cr, ws, cl, ⟨out, le⟩, dv, ik, op, rm⟩ := w
  cases cr <;> cases le <;> cases dv <;> cases ik <;> cases op <;>
    simp [renderBody, hp]

/-- C8 (counterexample): when every stage succeeds and the deferred
`os.RemoveAll` fails, `Render` returns the image and the workspace directory
still exists. -/
theorem Render_failed_removal_leaves_workspace :
    (Render worldRemoveFails [] ⟨"x".toList, ⟨4⟩, true⟩).outcome
        = .returned ⟨some ⟨"/tmp/texbot1/source.tex.png".toList⟩, none, []⟩
      ∧ "/tmp/texbot1".toList ∈ (Render worldRemoveFails [] ⟨"x".toList, ⟨4⟩, true⟩).fs := by
  decide

/-- C8 (amended): once the workspace directory `dir` was made, then on every
outcome of the later calls and tools, on a return as on a panic: if the deferred
`os.RemoveAll` succeeds, neither `dir` nor any path below it exists when the
`Render` call ends; if it fails, `dir` still exists. -/
theorem Render_removes_workspace (w : World) (fs : List (List Char)) (inp : ParsedString)
    (dir : List Char) (h : w.mkdirTemp = .ok dir) :
    (w.removeAll = none →
        dir ∉ (Render w fs inp).fs ∧ ∀ p ∈ (Render w fs inp).fs, ¬ (dir ++ ['/']) <+: p)
      ∧ (∀ err, w.removeAll = some err → dir ∈ (Render w fs inp).fs) := by
  have hfs : (Render w fs inp).fs
      = RemoveAll w.removeAll dir (renderBody w (dir :: fs) dir inp).fs := by
    simp [Render, h]
  rw [hfs]
  constructor
  · intro hr
    rw [hr]
    exact ⟨fun hmem => (mem_RemoveAll hmem).1 rfl, fun p hp => (mem_RemoveAll hp).2⟩
  · intro err hr
    rw [hr]
    exact renderBody_keeps w (dir :: fs) dir inp dir (by simp)

theorem Render_removes_workspace_witness :
    (worldAllOk.removeAll = none →
        "/tmp/texbot1".toList
            ∉ (Render worldAllOk ["/tmp/other".toList] ⟨"x".toList, ⟨4⟩, true⟩).fs
          ∧ ∀ p ∈ (Render worldAllOk ["/tmp/other".toList] ⟨"x".toList, ⟨4⟩, true⟩).fs,
            ¬ ("/tmp/texbot1".toList ++ ['/']) <+: p)
      ∧ (∀ err, worldAllOk.removeAll = some err → "/tmp/texbot1".toList
          ∈ (Render worldAllOk ["/tmp/other".toList] ⟨"x".toList, ⟨4⟩, true⟩).fs) :=
  Render_removes_workspace worldAllOk ["/tmp/other".toList] ⟨"x".toList, ⟨4⟩, true⟩
    "/tmp/texbot1".toList rfl

/-- The removal touches the workspace only: a path that is neither `dir` nor
below it and existed before the call exists after it. -/
theorem Render_keeps_other_paths (w : World) (fs : List (List Char)) (inp : ParsedString)
    (dir p : List Char) (h : w.mkdirTemp = .ok dir) (hp : p ∈ fs) (hne : p ≠ dir)
    (hpre : ¬ (dir ++ ['/']) <+: p) : p ∈ (Render w fs inp).fs := by
  have hfs : (Render w fs inp).fs
      = RemoveAll w.removeAll dir (renderBody w (dir :: fs) dir inp).fs := by
    simp [Render, h]
  have hbody := renderBody_keeps w (dir :: fs) dir inp p (by simp [hp])
  rw [hfs]
  cases hr : w.removeAll with
  | some e => simpa [RemoveAll] using hbody
  | none =>
    have hpf : (dir ++ ['/']).isPrefixOf p = false := by
      cases hq : (dir ++ ['/']).isPrefixOf p with
      | false => rfl
      | true => exact absurd (List.isPrefixOf_iff_prefix.mp hq) hpre
    simp [RemoveAll, List.mem_filter, hbody, hne, hpf]

theorem wrapInt64_of_range (x : Int) (h1 : -2 ^ 63 ≤ x) (h2 : x < 2 ^ 63) :
    wrapInt64 x = x := by
  unfold wrapInt64
  omega

/-- C10 (counterexample): for the request ParseString makes of
`$$x$$[999999999999999999]` the height passed to the rasterizer is
`-5340232221128654898`, not the rendering of 999999999999999999 × 50. -/
theorem Render_export_height_wraps :
    ((Render worldAllOk [] (ParseString "$$x$$[999999999999999999]".toList)).commands.map
        fun c => c.args.getD 1 [])
        = ["-interaction=nonstopmode".toList, "--exact-bbox".toList,
            "--export-height=-5340232221128654898".toList]
      ∧ "--export-height=".toList ++ formatInt
          ((ParseString "$$x$$[999999999999999999]".toList).Config.Scale * 50)
        = "--export-height=49999999999999999950".toList := by
  decide

/-- C10 (amended): the height argument of every rasterizer command `Render` runs
is the decimal rendering of `Scale * 50` evaluated in 64-bit two's complement;
it is the rendering of the integer `Scale × 50` whenever that product lies
between -2^63 and 2^63 - 1. -/
theorem Render_export_height (w : World) (fs : List (List Char)) (inp : ParsedString)
    (c : Command) (hc : c ∈ (Render w fs inp).commands) (ht : c.tool = .inkscape) :
    c.args.get? 1
        = some ("--export-height=".toList ++ formatInt (wrapInt64 (inp.Config.Scale * 50)))
      ∧ (-2 ^ 63 ≤ inp.Config.Scale * 50 → inp.Config.Scale * 50 < 2 ^ 63 →
          c.args.get? 1 = some ("--export-height=".toList ++ formatInt (inp.Config.Scale * 50))) := by
  have key : c.args.get? 1
      = some ("--export-height=".toList ++ formatInt (wrapInt64 (inp.Config.Scale * 50))) := by
    obtain ⟨mk, cr, ws, cl, ⟨out, le⟩, dv, ik, op, rm⟩ := w
    cases mk <;> cases cr <;> cases le <;> cases dv <;> cases ik <;> cases op <;>
      simp [Render, renderBody] at hc <;>
      (try (rcases hc with rfl | rfl | rfl <;> simp at ht ⊢))
  exact ⟨key, fun h1 h2 => by rw [key, wrapInt64_of_range _ h1 h2]⟩

theorem Render_export_height_witness :
    (⟨.inkscape, ["/tmp/texbot1/source.tex.svg".toList, "--export-height=150".toList,
        "--export-png=/tmp/texbot1/source.tex.png".toList]⟩ : Command).args.get? 1
        = some ("--export-height=".toList ++ formatInt (wrapInt64 ((3 : Int) * 50)))
      ∧ (-2 ^ 63 ≤ (3 : Int) * 50 → (3 : Int) * 50 < 2 ^ 63 →
          (⟨.inkscape, ["/tmp/texbot1/source.tex.svg".toList, "--export-height=150".toList,
            "--export-png=/tmp/texbot1/source.tex.png".toList]⟩ : Command).args.get? 1
            = some ("--export-height=".toList ++ formatInt ((3 : Int) * 50))) :=
  Render_export_height worldAllOk [] ⟨"x".toList, ⟨3⟩, true⟩ _
    (List.Mem.tail _ (List.Mem.tail _ (List.Mem.head _))) rfl

/-- An error line at the very start of the output, with no line break before it,
is not recognised. -/
theorem getLatexParseError_first_line :
    getLatexParseError "! a\nNo pages of output.\n".toList = [] := by
  decide

/-- Without the markers the diagnostic is empty. -/
theorem getLatexParseError_no_markers :
    getLatexParseError "This is TeX\nOutput written on source.dvi\n".toList = [] := by
  decide

/-- When the workspace, the source file, the typesetter and the vectorizer all
succeed, the rasterizer is run. -/
theorem Render_reaches_rasterize (w : World) (fs : List (List Char)) (inp : ParsedString)
    (dir : List Char) (h1 : w.mkdirTemp = .ok dir) (h2 : w.create = none)
    (h3 : w.latex.2 = none) (h4 : w.dvisvgm = none) :
    ∃ c ∈ (Render w fs inp).commands, c.tool = .inkscape := by
  obtain ⟨mk, cr, ws, cl, ⟨out, le⟩, dv, ik, op, rm⟩ := w
  simp only at h1 h2 h3 h4
  subst h1 h2 h3 h4
  cases ik <;> cases op <;> simp [Render, renderBody]

/-- A failed tool or a failed `os.Open` ends `Render` with a nil file and that error. -/
theorem Render_typeset_failure (w : World) (fs : List (List Char)) (inp : ParsedString)
    (dir out : List Char) (err : GoError) (h1 : w.mkdirTemp = .ok dir) (h2 : w.create = none)
    (h3 : w.latex = (out, some err)) :
    (Render w fs inp).outcome = .returned ⟨none, some err, getLatexParseError out⟩
      ∧ (Render w fs inp).commands.map Command.tool = [.latex] := by
  obtain ⟨mk, cr, ws, cl, lt, dv, ik, op, rm⟩ := w
  simp only at h1 h2 h3
  subst h1 h2 h3
  simp [Render, renderBody]

/-! ## The repository's tests, run on the model -/

theorem TestParseSimpleExpr :
    ParseString "$$hello$$".toList = ⟨"hello".toList, ⟨4⟩, true⟩ := by
  decide

theorem TestParsingIgnoresWhitespaceOnBothSides :
    ParseString "$$  hello   $$".toList = ⟨"hello".toList, ⟨4⟩, true⟩ := by
  decide

theorem TestParseExprWithConfig :
    ParseString "$$hello$$[3]".toList = ⟨"hello".toList, ⟨3⟩, true⟩ := by
  decide

theorem ParseString_no_math : (ParseString "no math here".toList).HasMatch = false := by
  decide

theorem ParseString_blank_body : (ParseString "$$   $$".toList).HasMatch = false := by
  decide

end TexBot
